import Mathlib

/-!
Verification development for the WebsiteAnalytics repository.

The repository holds two Python variants of the same utility:

* `src/app.py` — builds a day-one index (`build_day1_index`), streams the
  day-two file against it (`find_target_users`), and writes the sorted
  result (`write_output`).  Rows are validated (exactly 3 comma-separated
  fields, else a `ValueError` naming the file and 1-based line number),
  ids are whitespace-trimmed, and rows with a blank trimmed id are skipped.

* `src/main.py` — `load_visits` skips the first line of each file as a
  header and unpacks each remaining row into exactly three variables
  (a row without exactly 3 fields raises a bare unpacking `ValueError`
  carrying neither file name nor line number); ids are used verbatim,
  untrimmed, with no blank-id filtering.  `main` collects qualifying users
  in day-one insertion order and prints them unsorted.

We embed both variants shallowly.  A CSV file is a `List (List String)`
(the rows produced by `csv.reader`); a Python `dict`/`defaultdict` of sets
is an insertion-ordered association list `Dict`; Python sets of strings are
`Finset String`; exceptions are `Except`.
-/

/-- Python's `str.strip()`: remove leading and trailing whitespace.
(Core's `String.trim` is defined by well-founded recursion over byte
positions and does not evaluate inside the kernel, so stripping is
modelled structurally over the character list.) -/
def pyStrip (s : String) : String :=
  ⟨((s.data.dropWhile Char.isWhitespace).reverse.dropWhile Char.isWhitespace).reverse⟩

/-- A Python `dict` from user id to a set of product ids, keeping key
insertion order (later writes to an existing key update it in place). -/
abbrev Dict := List (String × Finset String)

/-- Lookup `d.get(u)`: the set stored under key `u`, if present. -/
def dictGet : Dict → String → Option (Finset String)
  | [], _ => none
  | (k, s) :: rest, u => if k = u then some s else dictGet rest u

/-- Update `d.setdefault(u, set()).add(p)`: add `p` to the set under key `u`,
appending a fresh singleton entry when `u` is not yet a key.  This is the
effect of both `app.py`'s get-or-create-then-add and `main.py`'s
`defaultdict(set)` access. -/
def dictAdd : Dict → String → String → Dict
  | [], u, p => [(u, {p})]
  | (k, s) :: rest, u, p =>
      if k = u then (k, insert p s) :: rest else (k, s) :: dictAdd rest u p

/-- Fold `dictAdd` over a list of (user, product) pairs. -/
def addAll : Dict → List (String × String) → Dict
  | d, [] => d
  | d, (u, p) :: rest => addAll (dictAdd d u p) rest

/-- The keys of a `Dict`, in insertion order. -/
def dictKeys (d : Dict) : List String := d.map Prod.fst

/-- Keys are pairwise distinct (true of every real Python dict). -/
def NodupKeys (d : Dict) : Prop := (dictKeys d).Nodup

/-- The error raised by `app.py` on a malformed row: the message
`f"{path}: expected 3 columns at line {row_num}, ..."` identifies the file
and the 1-based line number. -/
structure FmtError where
  file : String
  line : Nat
deriving DecidableEq

/-- Errors escaping `main.py`'s `load_visits`: `StopIteration` from
`next(reader)` on an empty file, or the tuple-unpacking `ValueError` on a
row without exactly 3 fields.  Neither carries a file name or line number. -/
inductive MainError
  | stopIteration
  | unpackError
deriving DecidableEq

instance exceptDecEq {ε α : Type} [DecidableEq ε] [DecidableEq α] : DecidableEq (Except ε α) :=
  fun x y =>
    match x, y with
    | .ok a, .ok b => if h : a = b then isTrue (by rw [h]) else isFalse (by simp [h])
    | .error e, .error e' => if h : e = e' then isTrue (by rw [h]) else isFalse (by simp [h])
    | .ok _, .error _ => isFalse (by simp)
    | .error _, .ok _ => isFalse (by simp)

/-! ### `src/app.py` -/

/-- Loop body of `build_day1_index` (`app.py` lines 40–54): `n` is the
1-based number of the next row, `d` the index accumulated so far. -/
def build_day1_go (file : String) : Nat → List (List String) → Dict → Except FmtError Dict
  | _, [], d => .ok d
  | n, row :: rest, d =>
    match row with
    | [u0, p0, _ts] =>
        let u := pyStrip u0
        let p := pyStrip p0
        if u = "" ∨ p = "" then build_day1_go file (n + 1) rest d
        else build_day1_go file (n + 1) rest (dictAdd d u p)
    | _ => .error ⟨file, n⟩

/-- Function `build_day1_index` (`app.py` lines 28–56): user_id → set of day-one
product_ids. -/
def build_day1_index (file : String) (rows : List (List String)) : Except FmtError Dict :=
  build_day1_go file 1 rows []

/-- Loop body of `find_target_users` (`app.py` lines 75–96): streams the
day-two rows against the completed `day1` index, accumulating result `r`. -/
def find_go (file : String) (day1 : Dict) : Nat → List (List String) → Finset String → Except FmtError (Finset String)
  | _, [], r => .ok r
  | n, row :: rest, r =>
    match row with
    | [u0, p0, _ts] =>
        let u := pyStrip u0
        let p := pyStrip p0
        if u = "" ∨ p = "" then find_go file day1 (n + 1) rest r
        else
          match dictGet day1 u with
          | none => find_go file day1 (n + 1) rest r
          | some s =>
              if u ∈ r then find_go file day1 (n + 1) rest r
              else if p ∉ s then find_go file day1 (n + 1) rest (insert u r)
              else find_go file day1 (n + 1) rest r
    | _ => .error ⟨file, n⟩

/-- Function `find_target_users` (`app.py` lines 59–98). -/
def find_target_users (day1 : Dict) (file : String) (rows : List (List String)) : Except FmtError (Finset String) :=
  find_go file day1 1 rows ∅

/-- Function `write_output` (`app.py` lines 101–106): `sorted(user_ids)` then one id
per line, each followed by a single newline. -/
def write_output (user_ids : Finset String) : String :=
  String.join ((user_ids.sort (· ≤ ·)).map (fun uid => uid ++ "\n"))

/-- The whole `app.py` pipeline (`main`, lines 124–132): build the day-one
index, stream day two, serialize the result. -/
def run_app (f1 f2 : String) (rows1 rows2 : List (List String)) : Except FmtError String :=
  match build_day1_index f1 rows1 with
  | .error e => .error e
  | .ok d1 =>
      match find_target_users d1 f2 rows2 with
      | .error e => .error e
      | .ok r => .ok (write_output r)

/-! ### `src/main.py` -/

/-- Loop body of `load_visits` (`main.py` lines 10–11): each row is unpacked
into exactly three names; ids are used verbatim (no trimming, no blank-id
filtering). -/
def load_visits_go : List (List String) → Dict → Except MainError Dict
  | [], d => .ok d
  | row :: rest, d =>
    match row with
    | [u, p, _ts] => load_visits_go rest (dictAdd d u p)
    | _ => .error .unpackError

/-- Function `load_visits` (`main.py` lines 5–12): `next(reader)` drops the first
row unconditionally (StopIteration on an empty file), then the remaining
rows are accumulated into a `defaultdict(set)`. -/
def load_visits (rows : List (List String)) : Except MainError Dict :=
  match rows with
  | [] => .error .stopIteration
  | _first :: rest => load_visits_go rest []

/-- The qualifying users of `main.py`'s `main` (lines 20–23): iterate the
day-one dict in insertion order, keep users also in day two whose day-two
set minus day-one set is non-empty (Python set truthiness). -/
def main_result (day1 day2 : Dict) : List String :=
  (day1.filter fun e =>
    match dictGet day2 e.1 with
    | some s2 => decide (s2 \ e.2).Nonempty
    | none => false).map Prod.fst

/-- The print loop of `main.py` (lines 25–26): each user followed by a
newline, in list order, no sorting. -/
def main_output (users : List String) : String :=
  String.join (users.map (fun u => u ++ "\n"))

/-- The whole `main.py` pipeline (`main`, lines 14–26). -/
def run_main (rows1 rows2 : List (List String)) : Except MainError String :=
  match load_visits rows1 with
  | .error e => .error e
  | .ok d1 =>
      match load_visits rows2 with
      | .error e => .error e
      | .ok d2 => .ok (main_output (main_result d1 d2))

/-! ### Abstractions of the processed streams -/

/-- The (trimmed) id pairs that `app.py` actually accumulates from a row
stream: 3-field rows whose trimmed ids are both non-blank. -/
def validPairs : List (List String) → List (String × String)
  | [] => []
  | row :: rest =>
    match row with
    | [u0, p0, _ts] =>
        let u := pyStrip u0
        let p := pyStrip p0
        if u = "" ∨ p = "" then validPairs rest else (u, p) :: validPairs rest
    | _ => validPairs rest

/-- The verbatim id pairs that `main.py` accumulates: every 3-field row,
untrimmed. -/
def rawPairs : List (List String) → List (String × String)
  | [] => []
  | row :: rest =>
    match row with
    | [u, p, _ts] => (u, p) :: rawPairs rest
    | _ => rawPairs rest

/-- The set of products paired with user `u` in a pair list. -/
def pairsProducts : List (String × String) → String → Finset String
  | [], _ => ∅
  | (u', p) :: rest, u =>
      if u' = u then insert p (pairsProducts rest u) else pairsProducts rest u

example : build_day1_index "d1" [["u1", "pA", "t1"], ["u1", "pB", "t2"], ["u2", "pX", "t3"]]
    = .ok [("u1", {"pA", "pB"}), ("u2", {"pX"})] := by decide

example : find_target_users [("u1", {"pA", "pB"}), ("u2", {"pX"})] "d2"
    [["u1", "pA", "t4"], ["u1", "pC", "t5"], ["u2", "pX", "t6"]] = .ok {"u1"} := by decide

example : write_output {"u1"} = "u1\n" := by
  simp [write_output, Finset.sort_singleton]
  rfl

example : run_app "d1" "d2"
    [["u1", "pA", "t1"], ["u1", "pB", "t2"], ["u2", "pX", "t3"]]
    [["u1", "pA", "t4"], ["u1", "pC", "t5"], ["u2", "pX", "t6"]] = .ok "u1\n" := by
  have h1 : build_day1_index "d1" [["u1", "pA", "t1"], ["u1", "pB", "t2"], ["u2", "pX", "t3"]]
      = .ok [("u1", {"pA", "pB"}), ("u2", {"pX"})] := by decide
  have h2 : find_target_users [("u1", {"pA", "pB"}), ("u2", {"pX"})] "d2"
      [["u1", "pA", "t4"], ["u1", "pC", "t5"], ["u2", "pX", "t6"]] = .ok {"u1"} := by decide
  simp [run_app, h1, h2, write_output, Finset.sort_singleton]
  rfl

example : build_day1_index "d1" [[" u1 ", "pA", "t"]] = .ok [("u1", {"pA"})] := by decide

example : load_visits [["h", "h", "h"], [" u1 ", "pA", "t"]] = .ok [(" u1 ", {"pA"})] := by decide

/-! ### Dictionary lemmas -/

theorem dictGet_dictAdd (d : Dict) (u p v : String) :
    dictGet (dictAdd d u p) v =
      if u = v then some (insert p ((dictGet d v).getD ∅)) else dictGet d v := by
  induction d with
  | nil =>
      by_cases h : u = v <;> simp [dictAdd, dictGet, h]
  | cons e rest ih =>
      obtain ⟨k, s⟩ := e
      by_cases hk : k = u
      · subst hk
        by_cases hv : k = v <;> simp [dictAdd, dictGet, hv]
      · by_cases hv : k = v
        · have huv : ¬(u = v) := fun h => hk (hv.trans h.symm)
          have hvu : ¬(v = u) := fun h => huv h.symm
          simp [dictAdd, dictGet, hk, hv, huv, hvu]
        · simp [dictAdd, dictGet, hk, hv, ih]

theorem mem_pairsProducts (l : List (String × String)) (u p : String) :
    p ∈ pairsProducts l u ↔ (u, p) ∈ l := by
  induction l with
  | nil => simp [pairsProducts]
  | cons e rest ih =>
      obtain ⟨u', p'⟩ := e
      by_cases h : u' = u
      · subst h
        have hcons : pairsProducts ((u', p') :: rest) u' = insert p' (pairsProducts rest u') := by
          simp [pairsProducts]
        rw [hcons]
        simp only [Finset.mem_insert, ih, List.mem_cons, Prod.mk.injEq, true_and]
      · have hne : ¬((u, p) = (u', p')) := by
          simp only [Prod.mk.injEq, not_and]
          intro hu; exact absurd hu.symm h
        simp [pairsProducts, h, ih, hne]

/-- How an option-valued lookup combines with the products added later. -/
def combineSets (o : Option (Finset String)) (t : Finset String) : Option (Finset String) :=
  match o with
  | some s => some (s ∪ t)
  | none => if t = ∅ then none else some t

theorem addAll_dictGet (l : List (String × String)) :
    ∀ (d : Dict) (u : String),
      dictGet (addAll d l) u = combineSets (dictGet d u) (pairsProducts l u) := by
  induction l with
  | nil =>
      intro d u
      cases h : dictGet d u <;> simp [addAll, pairsProducts, combineSets, h]
  | cons e rest ih =>
      obtain ⟨u', p⟩ := e
      intro d u
      have step : addAll d ((u', p) :: rest) = addAll (dictAdd d u' p) rest := rfl
      rw [step, ih, dictGet_dictAdd]
      by_cases h : u' = u
      · subst h
        cases hg : dictGet d u' with
        | none =>
            have hsing : ({p} : Finset String) ∪ pairsProducts rest u' =
                insert p (pairsProducts rest u') := by
              rw [show ({p} : Finset String) = insert p ∅ from rfl, Finset.insert_union,
                Finset.empty_union]
            simp [pairsProducts, combineSets, hg, Finset.insert_ne_empty, hsing]
        | some s =>
            simp [pairsProducts, combineSets, hg, Finset.insert_union, Finset.union_insert]
      · simp [pairsProducts, combineSets, h]

theorem dictKeys_dictAdd (d : Dict) (u p : String) :
    dictKeys (dictAdd d u p) =
      if u ∈ dictKeys d then dictKeys d else dictKeys d ++ [u] := by
  induction d with
  | nil => simp [dictAdd, dictKeys]
  | cons e rest ih =>
      obtain ⟨k, s⟩ := e
      by_cases hk : k = u
      · subst hk
        simp [dictAdd, dictKeys]
      · have hku : ¬(u = k) := fun h => hk h.symm
        have hstep : dictAdd ((k, s) :: rest) u p = (k, s) :: dictAdd rest u p := by
          simp [dictAdd, hk]
        have hck : dictKeys ((k, s) :: rest) = k :: dictKeys rest := rfl
        have hck2 : dictKeys ((k, s) :: dictAdd rest u p) = k :: dictKeys (dictAdd rest u p) := rfl
        rw [hstep, hck2, ih, hck]
        by_cases hmem : u ∈ dictKeys rest
        · simp [hmem, List.mem_cons]
        · simp [hmem, List.mem_cons, hku]

theorem nodupKeys_dictAdd {d : Dict} (h : NodupKeys d) (u p : String) :
    NodupKeys (dictAdd d u p) := by
  have h' : (dictKeys d).Nodup := h
  show (dictKeys (dictAdd d u p)).Nodup
  rw [dictKeys_dictAdd]
  by_cases hmem : u ∈ dictKeys d
  · simpa [hmem] using h'
  · simp [hmem, List.nodup_append, h']

theorem nodupKeys_addAll (l : List (String × String)) :
    ∀ {d : Dict}, NodupKeys d → NodupKeys (addAll d l) := by
  induction l with
  | nil => intro d h; simpa [addAll] using h
  | cons e rest ih =>
      obtain ⟨u, p⟩ := e
      intro d h
      exact ih (nodupKeys_dictAdd h u p)

theorem mem_dictKeys_of_mem {d : Dict} {u : String} {s : Finset String}
    (h : (u, s) ∈ d) : u ∈ dictKeys d :=
  List.mem_map.mpr ⟨(u, s), h, rfl⟩

theorem dictGet_eq_some_iff {d : Dict} (h : NodupKeys d) (u : String) (s : Finset String) :
    dictGet d u = some s ↔ (u, s) ∈ d := by
  induction d with
  | nil => simp [dictGet]
  | cons e rest ih =>
      obtain ⟨k, t⟩ := e
      have hsplit : k ∉ dictKeys rest ∧ NodupKeys rest := by
        have hcons : (k :: dictKeys rest).Nodup := h
        exact ⟨(List.nodup_cons.mp hcons).1, (List.nodup_cons.mp hcons).2⟩
      by_cases hk : k = u
      · subst hk
        constructor
        · intro hget
          have hts : t = s := by simpa [dictGet] using hget
          subst hts
          exact List.mem_cons_self _ _
        · intro hmem
          rcases List.mem_cons.mp hmem with heq | hmem'
          · cases heq
            simp [dictGet]
          · exact absurd (mem_dictKeys_of_mem hmem') hsplit.1
      · have hstep : dictGet ((k, t) :: rest) u = dictGet rest u := by
          simp [dictGet, hk]
        rw [hstep, ih hsplit.2]
        constructor
        · intro hm
          exact List.mem_cons_of_mem _ hm
        · intro hm
          rcases List.mem_cons.mp hm with heq | hm'
          · cases heq
            exact absurd rfl hk
          · exact hm'

/-! ### Step equations for the three row loops -/

theorem build_go_cons_blank {f : String} {n : Nat} {a b c : String}
    {rest : List (List String)} {d : Dict} (hbl : pyStrip a = "" ∨ pyStrip b = "") :
    build_day1_go f n ([a, b, c] :: rest) d = build_day1_go f (n + 1) rest d := by
  simp [build_day1_go, hbl]

theorem build_go_cons_add {f : String} {n : Nat} {a b c : String}
    {rest : List (List String)} {d : Dict} (hbl : ¬(pyStrip a = "" ∨ pyStrip b = "")) :
    build_day1_go f n ([a, b, c] :: rest) d =
      build_day1_go f (n + 1) rest (dictAdd d (pyStrip a) (pyStrip b)) := by
  simp [build_day1_go, hbl]

theorem build_go_cons_bad {f : String} {n : Nat} {row : List String}
    {rest : List (List String)} {d : Dict} (hlen : row.length ≠ 3) :
    build_day1_go f n (row :: rest) d = .error ⟨f, n⟩ := by
  rcases row with _ | ⟨a, _ | ⟨b, _ | ⟨c, _ | ⟨x, xs⟩⟩⟩⟩
  · rfl
  · rfl
  · rfl
  · exact absurd rfl hlen
  · rfl

theorem find_go_cons_blank {f : String} {day1 : Dict} {n : Nat} {a b c : String}
    {rest : List (List String)} {r : Finset String}
    (hbl : pyStrip a = "" ∨ pyStrip b = "") :
    find_go f day1 n ([a, b, c] :: rest) r = find_go f day1 (n + 1) rest r := by
  simp [find_go, hbl]

theorem find_go_cons_none {f : String} {day1 : Dict} {n : Nat} {a b c : String}
    {rest : List (List String)} {r : Finset String}
    (hbl : ¬(pyStrip a = "" ∨ pyStrip b = ""))
    (hg : dictGet day1 (pyStrip a) = none) :
    find_go f day1 n ([a, b, c] :: rest) r = find_go f day1 (n + 1) rest r := by
  simp [find_go, hbl, hg]

theorem find_go_cons_memr {f : String} {day1 : Dict} {n : Nat} {a b c : String}
    {rest : List (List String)} {r : Finset String} {s0 : Finset String}
    (hbl : ¬(pyStrip a = "" ∨ pyStrip b = ""))
    (hg : dictGet day1 (pyStrip a) = some s0) (hr : pyStrip a ∈ r) :
    find_go f day1 n ([a, b, c] :: rest) r = find_go f day1 (n + 1) rest r := by
  simp [find_go, hbl, hg, hr]

theorem find_go_cons_new {f : String} {day1 : Dict} {n : Nat} {a b c : String}
    {rest : List (List String)} {r : Finset String} {s0 : Finset String}
    (hbl : ¬(pyStrip a = "" ∨ pyStrip b = ""))
    (hg : dictGet day1 (pyStrip a) = some s0) (hr : pyStrip a ∉ r)
    (hp : pyStrip b ∉ s0) :
    find_go f day1 n ([a, b, c] :: rest) r =
      find_go f day1 (n + 1) rest (insert (pyStrip a) r) := by
  simp [find_go, hbl, hg, hr, hp]

theorem find_go_cons_old {f : String} {day1 : Dict} {n : Nat} {a b c : String}
    {rest : List (List String)} {r : Finset String} {s0 : Finset String}
    (hbl : ¬(pyStrip a = "" ∨ pyStrip b = ""))
    (hg : dictGet day1 (pyStrip a) = some s0) (hr : pyStrip a ∉ r)
    (hp : pyStrip b ∈ s0) :
    find_go f day1 n ([a, b, c] :: rest) r = find_go f day1 (n + 1) rest r := by
  simp [find_go, hbl, hg, hr, hp]

theorem find_go_cons_bad {f : String} {day1 : Dict} {n : Nat} {row : List String}
    {rest : List (List String)} {r : Finset String} (hlen : row.length ≠ 3) :
    find_go f day1 n (row :: rest) r = .error ⟨f, n⟩ := by
  rcases row with _ | ⟨a, _ | ⟨b, _ | ⟨c, _ | ⟨x, xs⟩⟩⟩⟩
  · rfl
  · rfl
  · rfl
  · exact absurd rfl hlen
  · rfl

theorem load_go_cons_add {a b c : String} {rest : List (List String)} {d : Dict} :
    load_visits_go ([a, b, c] :: rest) d = load_visits_go rest (dictAdd d a b) := rfl

theorem load_go_cons_bad {row : List String} {rest : List (List String)} {d : Dict}
    (hlen : row.length ≠ 3) :
    load_visits_go (row :: rest) d = .error .unpackError := by
  rcases row with _ | ⟨a, _ | ⟨b, _ | ⟨c, _ | ⟨x, xs⟩⟩⟩⟩
  · rfl
  · rfl
  · rfl
  · exact absurd rfl hlen
  · rfl

/-! ### What the index-building folds compute -/

theorem build_go_ok_addAll :
    ∀ (rows : List (List String)) (f : String) (n : Nat) (d res : Dict),
      build_day1_go f n rows d = .ok res → res = addAll d (validPairs rows) := by
  intro rows
  induction rows with
  | nil =>
      intro f n d res h
      simp [build_day1_go] at h
      simp [validPairs, addAll, h]
  | cons row rest ih =>
      intro f n d res h
      by_cases h3 : row.length = 3
      · rcases List.length_eq_three.mp h3 with ⟨a, b, c, rfl⟩
        by_cases hbl : pyStrip a = "" ∨ pyStrip b = ""
        · rw [build_go_cons_blank hbl] at h
          rw [ih _ _ _ _ h]
          simp [validPairs, hbl]
        · rw [build_go_cons_add hbl] at h
          rw [ih _ _ _ _ h]
          simp [validPairs, hbl, addAll]
      · rw [build_go_cons_bad h3] at h
        cases h

theorem load_go_ok_addAll :
    ∀ (rows : List (List String)) (d res : Dict),
      load_visits_go rows d = .ok res → res = addAll d (rawPairs rows) := by
  intro rows
  induction rows with
  | nil =>
      intro d res h
      simp [load_visits_go] at h
      simp [rawPairs, addAll, h]
  | cons row rest ih =>
      intro d res h
      by_cases h3 : row.length = 3
      · rcases List.length_eq_three.mp h3 with ⟨a, b, c, rfl⟩
        rw [load_go_cons_add] at h
        rw [ih _ _ h]
        simp [rawPairs, addAll]
      · rw [load_go_cons_bad h3] at h
        cases h

/-! ### What the comparison fold computes -/

theorem exists_pair_cons_iff {u u1 p1 : String} {l : List (String × String)}
    {Q : String → Prop} :
    (∃ p, (u, p) ∈ ((u1, p1) :: l) ∧ Q p) ↔
      ((u = u1 ∧ Q p1) ∨ ∃ p, (u, p) ∈ l ∧ Q p) := by
  constructor
  · rintro ⟨p, hp, hQ⟩
    rcases List.mem_cons.mp hp with heq | hm
    · cases heq
      exact Or.inl ⟨rfl, hQ⟩
    · exact Or.inr ⟨p, hm, hQ⟩
  · rintro (⟨rfl, hQ⟩ | ⟨p, hm, hQ⟩)
    · exact ⟨p1, List.mem_cons_self _ _, hQ⟩
    · exact ⟨p, List.mem_cons_of_mem _ hm, hQ⟩

theorem find_go_ok_iff :
    ∀ (rows : List (List String)) (f : String) (day1 : Dict) (n : Nat)
      (r res : Finset String),
      find_go f day1 n rows r = .ok res →
      ∀ u, u ∈ res ↔ u ∈ r ∨ ∃ p, (u, p) ∈ validPairs rows ∧
        ∃ s, dictGet day1 u = some s ∧ p ∉ s := by
  intro rows
  induction rows with
  | nil =>
      intro f day1 n r res h u
      simp [find_go] at h
      simp [validPairs, ← h]
  | cons row rest ih =>
      intro f day1 n r res h u
      by_cases h3 : row.length = 3
      · rcases List.length_eq_three.mp h3 with ⟨a, b, c, rfl⟩
        by_cases hbl : pyStrip a = "" ∨ pyStrip b = ""
        · rw [find_go_cons_blank hbl] at h
          rw [ih _ _ _ _ _ h u]
          simp [validPairs, hbl]
        · have hvp : validPairs ([a, b, c] :: rest) =
              (pyStrip a, pyStrip b) :: validPairs rest := by
            simp [validPairs, hbl]
          rcases hg : dictGet day1 (pyStrip a) with _ | s0
          · rw [find_go_cons_none hbl hg] at h
            rw [ih _ _ _ _ _ h u, hvp, exists_pair_cons_iff]
            have hfalse : ¬(u = pyStrip a ∧
                ∃ s, dictGet day1 u = some s ∧ pyStrip b ∉ s) := by
              rintro ⟨rfl, s, hs, -⟩
              rw [hg] at hs
              cases hs
            simp [hfalse]
          · by_cases hr : pyStrip a ∈ r
            · rw [find_go_cons_memr hbl hg hr] at h
              rw [ih _ _ _ _ _ h u, hvp, exists_pair_cons_iff]
              constructor
              · rintro (h1 | h2)
                · exact Or.inl h1
                · exact Or.inr (Or.inr h2)
              · rintro (h1 | (⟨rfl, -⟩ | h2))
                · exact Or.inl h1
                · exact Or.inl hr
                · exact Or.inr h2
            · by_cases hp : pyStrip b ∈ s0
              · rw [find_go_cons_old hbl hg hr hp] at h
                rw [ih _ _ _ _ _ h u, hvp, exists_pair_cons_iff]
                have hfalse : ¬(u = pyStrip a ∧
                    ∃ s, dictGet day1 u = some s ∧ pyStrip b ∉ s) := by
                  rintro ⟨rfl, s, hs, hns⟩
                  rw [hg] at hs
                  cases hs
                  exact hns hp
                simp [hfalse]
              · rw [find_go_cons_new hbl hg hr hp] at h
                rw [ih _ _ _ _ _ h u, hvp, exists_pair_cons_iff]
                rw [Finset.mem_insert]
                constructor
                · rintro ((rfl | h1) | h2)
                  · exact Or.inr (Or.inl ⟨rfl, s0, hg, hp⟩)
                  · exact Or.inl h1
                  · exact Or.inr (Or.inr h2)
                · rintro (h1 | (⟨rfl, -⟩ | h2))
                  · exact Or.inl (Or.inr h1)
                  · exact Or.inl (Or.inl rfl)
                  · exact Or.inr h2
      · rw [find_go_cons_bad h3] at h
        cases h

theorem mem_main_result {d1 d2 : Dict} (h1 : NodupKeys d1) (u : String) :
    u ∈ main_result d1 d2 ↔
      ∃ s1, dictGet d1 u = some s1 ∧ ∃ s2, dictGet d2 u = some s2 ∧ (s2 \ s1).Nonempty := by
  simp only [main_result]
  constructor
  · intro hm
    rcases List.mem_map.mp hm with ⟨⟨v, s1⟩, he, rfl⟩
    rcases List.mem_filter.mp he with ⟨hmem, hP⟩
    refine ⟨s1, (dictGet_eq_some_iff h1 v s1).mpr hmem, ?_⟩
    have hP' : (match dictGet d2 v with
        | some s2 => decide ((s2 \ s1).Nonempty)
        | none => false) = true := hP
    rcases hg2 : dictGet d2 v with _ | s2
    · rw [hg2] at hP'
      cases hP'
    · rw [hg2] at hP'
      exact ⟨s2, rfl, of_decide_eq_true hP'⟩
  · rintro ⟨s1, hg1, s2, hg2, hne⟩
    have hPv : (match dictGet d2 u with
        | some s2 => decide ((s2 \ s1).Nonempty)
        | none => false) = true := by
      rw [hg2]
      exact decide_eq_true hne
    exact List.mem_map.mpr
      ⟨(u, s1), List.mem_filter.mpr ⟨(dictGet_eq_some_iff h1 u s1).mp hg1, hPv⟩, rfl⟩

/-! ### The comparator without its short-circuit step -/

/-- The comparator of `app.py` with the short-circuit membership test
(`if user_id in result: continue`, `app.py` lines 91–93) removed; every
other step is identical to `find_go`. -/
def find_go_noshort (file : String) (day1 : Dict) : Nat → List (List String) → Finset String → Except FmtError (Finset String)
  | _, [], r => .ok r
  | n, row :: rest, r =>
    match row with
    | [u0, p0, _ts] =>
        let u := pyStrip u0
        let p := pyStrip p0
        if u = "" ∨ p = "" then find_go_noshort file day1 (n + 1) rest r
        else
          match dictGet day1 u with
          | none => find_go_noshort file day1 (n + 1) rest r
          | some s =>
              if p ∉ s then find_go_noshort file day1 (n + 1) rest (insert u r)
              else find_go_noshort file day1 (n + 1) rest r
    | _ => .error ⟨file, n⟩

/-- Function `find_target_users` without the short-circuit optimization. -/
def find_target_users_noshort (day1 : Dict) (file : String) (rows : List (List String)) : Except FmtError (Finset String) :=
  find_go_noshort file day1 1 rows ∅

theorem noshort_cons_blank {f : String} {day1 : Dict} {n : Nat} {a b c : String}
    {rest : List (List String)} {r : Finset String}
    (hbl : pyStrip a = "" ∨ pyStrip b = "") :
    find_go_noshort f day1 n ([a, b, c] :: rest) r = find_go_noshort f day1 (n + 1) rest r := by
  simp [find_go_noshort, hbl]

theorem noshort_cons_none {f : String} {day1 : Dict} {n : Nat} {a b c : String}
    {rest : List (List String)} {r : Finset String}
    (hbl : ¬(pyStrip a = "" ∨ pyStrip b = ""))
    (hg : dictGet day1 (pyStrip a) = none) :
    find_go_noshort f day1 n ([a, b, c] :: rest) r = find_go_noshort f day1 (n + 1) rest r := by
  simp [find_go_noshort, hbl, hg]

theorem noshort_cons_new {f : String} {day1 : Dict} {n : Nat} {a b c : String}
    {rest : List (List String)} {r : Finset String} {s0 : Finset String}
    (hbl : ¬(pyStrip a = "" ∨ pyStrip b = ""))
    (hg : dictGet day1 (pyStrip a) = some s0) (hp : pyStrip b ∉ s0) :
    find_go_noshort f day1 n ([a, b, c] :: rest) r =
      find_go_noshort f day1 (n + 1) rest (insert (pyStrip a) r) := by
  simp [find_go_noshort, hbl, hg, hp]

theorem noshort_cons_old {f : String} {day1 : Dict} {n : Nat} {a b c : String}
    {rest : List (List String)} {r : Finset String} {s0 : Finset String}
    (hbl : ¬(pyStrip a = "" ∨ pyStrip b = ""))
    (hg : dictGet day1 (pyStrip a) = some s0) (hp : pyStrip b ∈ s0) :
    find_go_noshort f day1 n ([a, b, c] :: rest) r = find_go_noshort f day1 (n + 1) rest r := by
  simp [find_go_noshort, hbl, hg, hp]

theorem noshort_cons_bad {f : String} {day1 : Dict} {n : Nat} {row : List String}
    {rest : List (List String)} {r : Finset String} (hlen : row.length ≠ 3) :
    find_go_noshort f day1 n (row :: rest) r = .error ⟨f, n⟩ := by
  rcases row with _ | ⟨a, _ | ⟨b, _ | ⟨c, _ | ⟨x, xs⟩⟩⟩⟩
  · rfl
  · rfl
  · rfl
  · exact absurd rfl hlen
  · rfl

theorem find_go_eq_noshort :
    ∀ (rows : List (List String)) (f : String) (day1 : Dict) (n : Nat) (r : Finset String),
      find_go f day1 n rows r = find_go_noshort f day1 n rows r := by
  intro rows
  induction rows with
  | nil => intro f day1 n r; rfl
  | cons row rest ih =>
      intro f day1 n r
      by_cases h3 : row.length = 3
      · rcases List.length_eq_three.mp h3 with ⟨a, b, c, rfl⟩
        by_cases hbl : pyStrip a = "" ∨ pyStrip b = ""
        · rw [find_go_cons_blank hbl, noshort_cons_blank hbl, ih]
        · rcases hg : dictGet day1 (pyStrip a) with _ | s0
          · rw [find_go_cons_none hbl hg, noshort_cons_none hbl hg, ih]
          · by_cases hp : pyStrip b ∈ s0
            · by_cases hr : pyStrip a ∈ r
              · rw [find_go_cons_memr hbl hg hr, noshort_cons_old hbl hg hp, ih]
              · rw [find_go_cons_old hbl hg hr hp, noshort_cons_old hbl hg hp, ih]
            · by_cases hr : pyStrip a ∈ r
              · rw [find_go_cons_memr hbl hg hr, noshort_cons_new hbl hg hp, ih,
                  Finset.insert_eq_self.mpr hr]
              · rw [find_go_cons_new hbl hg hr hp, noshort_cons_new hbl hg hp, ih]
      · rw [find_go_cons_bad h3, noshort_cons_bad h3]

/-! ### The comparator with the day-one index threaded as explicit state -/

/-- Loop of `find_target_users` with the day-one index threaded through it as
explicit state: each iteration receives the index left by the previous one
and passes on the index it leaves behind.  The loop body of `app.py`
(lines 77–96) only ever reads the index (`day1_index.get(user_id)`, line 86)
and contains no write to it, so each embedded iteration hands its input
index through unchanged; the final index is returned next to the result. -/
def find_go_st (file : String) : Dict → Nat → List (List String) → Finset String → Except FmtError (Dict × Finset String)
  | day1, _, [], r => .ok (day1, r)
  | day1, n, row :: rest, r =>
    match row with
    | [u0, p0, _ts] =>
        let u := pyStrip u0
        let p := pyStrip p0
        if u = "" ∨ p = "" then find_go_st file day1 (n + 1) rest r
        else
          match dictGet day1 u with
          | none => find_go_st file day1 (n + 1) rest r
          | some s =>
              if u ∈ r then find_go_st file day1 (n + 1) rest r
              else if p ∉ s then find_go_st file day1 (n + 1) rest (insert u r)
              else find_go_st file day1 (n + 1) rest r
    | _ => .error ⟨file, n⟩

/-- Function `find_target_users` in state-threading form. -/
def find_target_users_st (day1 : Dict) (file : String) (rows : List (List String)) : Except FmtError (Dict × Finset String) :=
  find_go_st file day1 1 rows ∅

theorem find_go_st_eq :
    ∀ (rows : List (List String)) (f : String) (day1 : Dict) (n : Nat) (r : Finset String),
      find_go_st f day1 n rows r = (find_go f day1 n rows r).map (fun res => (day1, res)) := by
  intro rows
  induction rows with
  | nil => intro f day1 n r; rfl
  | cons row rest ih =>
      intro f day1 n r
      by_cases h3 : row.length = 3
      · rcases List.length_eq_three.mp h3 with ⟨a, b, c, rfl⟩
        by_cases hbl : pyStrip a = "" ∨ pyStrip b = ""
        · have hstep : find_go_st f day1 n ([a, b, c] :: rest) r
              = find_go_st f day1 (n + 1) rest r := by
            simp [find_go_st, hbl]
          rw [hstep, find_go_cons_blank hbl, ih]
        · rcases hg : dictGet day1 (pyStrip a) with _ | s0
          · have hstep : find_go_st f day1 n ([a, b, c] :: rest) r
                = find_go_st f day1 (n + 1) rest r := by
              simp [find_go_st, hbl, hg]
            rw [hstep, find_go_cons_none hbl hg, ih]
          · by_cases hr : pyStrip a ∈ r
            · have hstep : find_go_st f day1 n ([a, b, c] :: rest) r
                  = find_go_st f day1 (n + 1) rest r := by
                simp [find_go_st, hbl, hg, hr]
              rw [hstep, find_go_cons_memr hbl hg hr, ih]
            · by_cases hp : pyStrip b ∈ s0
              · have hstep : find_go_st f day1 n ([a, b, c] :: rest) r
                    = find_go_st f day1 (n + 1) rest r := by
                  simp [find_go_st, hbl, hg, hr, hp]
                rw [hstep, find_go_cons_old hbl hg hr hp, ih]
              · have hstep : find_go_st f day1 n ([a, b, c] :: rest) r
                    = find_go_st f day1 (n + 1) rest (insert (pyStrip a) r) := by
                  simp [find_go_st, hbl, hg, hr, hp]
                rw [hstep, find_go_cons_new hbl hg hr hp, ih]
      · have hstep : find_go_st f day1 n (row :: rest) r = .error ⟨f, n⟩ := by
          rcases row with _ | ⟨a, _ | ⟨b, _ | ⟨c, _ | ⟨x, xs⟩⟩⟩⟩
          · rfl
          · rfl
          · rfl
          · exact absurd rfl h3
          · rfl
        rw [hstep, find_go_cons_bad h3]
        rfl

/-! ### Timestamp irrelevance machinery -/

/-- Two rows that differ at most in their third (timestamp) field: both have
exactly 3 fields with equal first and second fields, or they are identical
(which is the only way a row without a third field can qualify). -/
def tsEqRow : List String → List String → Bool
  | [u, p, _], [u', p', _] => u == u' && p == p'
  | r, r' => r == r'

/-- Pointwise `tsEqRow` over two row streams of equal length. -/
def tsEqRows : List (List String) → List (List String) → Bool
  | [], [] => true
  | r :: rs, r' :: rs' => tsEqRow r r' && tsEqRows rs rs'
  | _, _ => false

theorem tsEqRow_cases {r r' : List String} (h : tsEqRow r r' = true) :
    (r = r' ∧ r.length ≠ 3) ∨ ∃ u p t t', r = [u, p, t] ∧ r' = [u, p, t'] := by
  rcases r with _ | ⟨u, _ | ⟨p, _ | ⟨t, _ | ⟨x, xs⟩⟩⟩⟩ <;>
    rcases r' with _ | ⟨u', _ | ⟨p', _ | ⟨t', _ | ⟨x', xs'⟩⟩⟩⟩ <;>
      simp_all [tsEqRow]

theorem build_go_tsEq :
    ∀ (rows rows' : List (List String)) (f : String) (n : Nat) (d : Dict),
      tsEqRows rows rows' = true →
      build_day1_go f n rows d = build_day1_go f n rows' d := by
  intro rows
  induction rows with
  | nil =>
      intro rows' f n d h
      cases rows' with
      | nil => rfl
      | cons r rs => simp [tsEqRows] at h
  | cons row rest ih =>
      intro rows' f n d h
      cases rows' with
      | nil => simp [tsEqRows] at h
      | cons row' rest' =>
          have h2 : tsEqRow row row' = true ∧ tsEqRows rest rest' = true := by
            simpa [tsEqRows, Bool.and_eq_true] using h
          rcases tsEqRow_cases h2.1 with ⟨rfl, hlen⟩ | ⟨u, p, t, t', rfl, rfl⟩
          · rw [build_go_cons_bad hlen, build_go_cons_bad hlen]
          · by_cases hbl : pyStrip u = "" ∨ pyStrip p = ""
            · rw [build_go_cons_blank hbl, build_go_cons_blank hbl, ih _ _ _ _ h2.2]
            · rw [build_go_cons_add hbl, build_go_cons_add hbl, ih _ _ _ _ h2.2]

theorem find_go_tsEq :
    ∀ (rows rows' : List (List String)) (f : String) (day1 : Dict) (n : Nat)
      (r : Finset String),
      tsEqRows rows rows' = true →
      find_go f day1 n rows r = find_go f day1 n rows' r := by
  intro rows
  induction rows with
  | nil =>
      intro rows' f day1 n r h
      cases rows' with
      | nil => rfl
      | cons r0 rs => simp [tsEqRows] at h
  | cons row rest ih =>
      intro rows' f day1 n r h
      cases rows' with
      | nil => simp [tsEqRows] at h
      | cons row' rest' =>
          have h2 : tsEqRow row row' = true ∧ tsEqRows rest rest' = true := by
            simpa [tsEqRows, Bool.and_eq_true] using h
          rcases tsEqRow_cases h2.1 with ⟨rfl, hlen⟩ | ⟨u, p, t, t', rfl, rfl⟩
          · rw [find_go_cons_bad hlen, find_go_cons_bad hlen]
          · by_cases hbl : pyStrip u = "" ∨ pyStrip p = ""
            · rw [find_go_cons_blank hbl, find_go_cons_blank hbl, ih _ _ _ _ _ h2.2]
            · rcases hg : dictGet day1 (pyStrip u) with _ | s0
              · rw [find_go_cons_none hbl hg, find_go_cons_none hbl hg, ih _ _ _ _ _ h2.2]
              · by_cases hr : pyStrip u ∈ r
                · rw [find_go_cons_memr hbl hg hr, find_go_cons_memr hbl hg hr,
                    ih _ _ _ _ _ h2.2]
                · by_cases hp : pyStrip p ∈ s0
                  · rw [find_go_cons_old hbl hg hr hp, find_go_cons_old hbl hg hr hp,
                      ih _ _ _ _ _ h2.2]
                  · rw [find_go_cons_new hbl hg hr hp, find_go_cons_new hbl hg hr hp,
                      ih _ _ _ _ _ h2.2]

theorem load_go_tsEq :
    ∀ (rows rows' : List (List String)) (d : Dict),
      tsEqRows rows rows' = true →
      load_visits_go rows d = load_visits_go rows' d := by
  intro rows
  induction rows with
  | nil =>
      intro rows' d h
      cases rows' with
      | nil => rfl
      | cons r rs => simp [tsEqRows] at h
  | cons row rest ih =>
      intro rows' d h
      cases rows' with
      | nil => simp [tsEqRows] at h
      | cons row' rest' =>
          have h2 : tsEqRow row row' = true ∧ tsEqRows rest rest' = true := by
            simpa [tsEqRows, Bool.and_eq_true] using h
          rcases tsEqRow_cases h2.1 with ⟨rfl, hlen⟩ | ⟨u, p, t, t', rfl, rfl⟩
          · rw [load_go_cons_bad hlen, load_go_cons_bad hlen]
          · rw [load_go_cons_add, load_go_cons_add, ih _ _ h2.2]

theorem load_visits_tsEq {rows rows' : List (List String)}
    (h : tsEqRows rows rows' = true) : load_visits rows = load_visits rows' := by
  cases rows with
  | nil =>
      cases rows' with
      | nil => rfl
      | cons r rs => simp [tsEqRows] at h
  | cons row rest =>
      cases rows' with
      | nil => simp [tsEqRows] at h
      | cons row' rest' =>
          have h2 : tsEqRow row row' = true ∧ tsEqRows rest rest' = true := by
            simpa [tsEqRows, Bool.and_eq_true] using h
          show load_visits_go rest [] = load_visits_go rest' []
          exact load_go_tsEq rest rest' [] h2.2

/-! ### Where the strict loops fail on a malformed row -/

theorem build_go_error_at :
    ∀ (rows : List (List String)) (i : Nat) (row : List String) (f : String)
      (n : Nat) (d : Dict),
      (∀ j, j < i → ∀ r', rows.get? j = some r' → r'.length = 3) →
      rows.get? i = some row → row.length ≠ 3 →
      build_day1_go f n rows d = .error ⟨f, n + i⟩ := by
  intro rows
  induction rows with
  | nil =>
      intro i row f n d hpre hget hlen
      simp at hget
  | cons r0 rest ih =>
      intro i row f n d hpre hget hlen
      cases i with
      | zero =>
          have h0 : r0 = row := by simpa using hget
          subst h0
          rw [build_go_cons_bad hlen]
          rfl
      | succ i' =>
          have h0 : r0.length = 3 := hpre 0 (Nat.succ_pos _) r0 rfl
          rcases List.length_eq_three.mp h0 with ⟨a, b, c, rfl⟩
          have hpre' : ∀ j, j < i' → ∀ r', rest.get? j = some r' → r'.length = 3 :=
            fun j hj r' hr' => hpre (j + 1) (Nat.succ_lt_succ hj) r' hr'
          have hget' : rest.get? i' = some row := hget
          have harith : n + 1 + i' = n + (i' + 1) := by omega
          by_cases hbl : pyStrip a = "" ∨ pyStrip b = ""
          · rw [build_go_cons_blank hbl, ih i' row f (n + 1) d hpre' hget' hlen, harith]
          · rw [build_go_cons_add hbl,
              ih i' row f (n + 1) (dictAdd d (pyStrip a) (pyStrip b)) hpre' hget' hlen,
              harith]

theorem find_go_error_at :
    ∀ (rows : List (List String)) (i : Nat) (row : List String) (f : String)
      (day1 : Dict) (n : Nat) (r : Finset String),
      (∀ j, j < i → ∀ r', rows.get? j = some r' → r'.length = 3) →
      rows.get? i = some row → row.length ≠ 3 →
      find_go f day1 n rows r = .error ⟨f, n + i⟩ := by
  intro rows
  induction rows with
  | nil =>
      intro i row f day1 n r hpre hget hlen
      simp at hget
  | cons r0 rest ih =>
      intro i row f day1 n r hpre hget hlen
      cases i with
      | zero =>
          have h0 : r0 = row := by simpa using hget
          subst h0
          rw [find_go_cons_bad hlen]
          rfl
      | succ i' =>
          have h0 : r0.length = 3 := hpre 0 (Nat.succ_pos _) r0 rfl
          rcases List.length_eq_three.mp h0 with ⟨a, b, c, rfl⟩
          have hpre' : ∀ j, j < i' → ∀ r', rest.get? j = some r' → r'.length = 3 :=
            fun j hj r' hr' => hpre (j + 1) (Nat.succ_lt_succ hj) r' hr'
          have hget' : rest.get? i' = some row := hget
          have harith : n + 1 + i' = n + (i' + 1) := by omega
          by_cases hbl : pyStrip a = "" ∨ pyStrip b = ""
          · rw [find_go_cons_blank hbl, ih i' row f day1 (n + 1) r hpre' hget' hlen, harith]
          · rcases hg : dictGet day1 (pyStrip a) with _ | s0
            · rw [find_go_cons_none hbl hg,
                ih i' row f day1 (n + 1) r hpre' hget' hlen, harith]
            · by_cases hr : pyStrip a ∈ r
              · rw [find_go_cons_memr hbl hg hr,
                  ih i' row f day1 (n + 1) r hpre' hget' hlen, harith]
              · by_cases hp : pyStrip b ∈ s0
                · rw [find_go_cons_old hbl hg hr hp,
                    ih i' row f day1 (n + 1) r hpre' hget' hlen, harith]
                · rw [find_go_cons_new hbl hg hr hp,
                    ih i' row f day1 (n + 1) (insert (pyStrip a) r) hpre' hget' hlen,
                    harith]

theorem load_go_error_at :
    ∀ (rows : List (List String)) (i : Nat) (row : List String) (d : Dict),
      (∀ j, j < i → ∀ r', rows.get? j = some r' → r'.length = 3) →
      rows.get? i = some row → row.length ≠ 3 →
      load_visits_go rows d = .error .unpackError := by
  intro rows
  induction rows with
  | nil =>
      intro i row d hpre hget hlen
      simp at hget
  | cons r0 rest ih =>
      intro i row d hpre hget hlen
      cases i with
      | zero =>
          have h0 : r0 = row := by simpa using hget
          subst h0
          rw [load_go_cons_bad hlen]
      | succ i' =>
          have h0 : r0.length = 3 := hpre 0 (Nat.succ_pos _) r0 rfl
          rcases List.length_eq_three.mp h0 with ⟨a, b, c, rfl⟩
          have hpre' : ∀ j, j < i' → ∀ r', rest.get? j = some r' → r'.length = 3 :=
            fun j hj r' hr' => hpre (j + 1) (Nat.succ_lt_succ hj) r' hr'
          have hget' : rest.get? i' = some row := hget
          rw [load_go_cons_add, ih i' row (dictAdd d a b) hpre' hget' hlen]

/-! ### Claims -/

/-- C1: in both variants a user is in the final result set iff it is a key
of the day-one index and at least one of its day-two product ids is absent
from its day-one product set; consequently a user absent from day one, or
all of whose day-two product ids lie in its day-one set, is never in the
result. -/
theorem C1_result_membership :
    (∀ (day1 : Dict) (f : String) (rows2 : List (List String)) (r : Finset String),
      find_target_users day1 f rows2 = .ok r →
      ∀ u, u ∈ r ↔ ∃ s, dictGet day1 u = some s ∧
        ∃ p, (u, p) ∈ validPairs rows2 ∧ p ∉ s)
    ∧
    (∀ (rows1 rows2 : List (List String)) (d1 d2 : Dict),
      load_visits rows1 = .ok d1 → load_visits rows2 = .ok d2 →
      ∀ u, u ∈ main_result d1 d2 ↔ ∃ s1, dictGet d1 u = some s1 ∧
        ∃ s2, dictGet d2 u = some s2 ∧ ∃ p ∈ s2, p ∉ s1) := by
  constructor
  · intro day1 f rows2 r h u
    have hiff := find_go_ok_iff rows2 f day1 1 ∅ r h u
    rw [hiff]
    simp only [Finset.not_mem_empty, false_or]
    constructor
    · rintro ⟨p, hp, s, hs, hns⟩
      exact ⟨s, hs, p, hp, hns⟩
    · rintro ⟨s, hs, p, hp, hns⟩
      exact ⟨p, hp, s, hs, hns⟩
  · intro rows1 rows2 d1 d2 h1 h2 u
    rcases rows1 with _ | ⟨first1, rest1⟩
    · simp [load_visits] at h1
    rcases rows2 with _ | ⟨first2, rest2⟩
    · simp [load_visits] at h2
    have hd1 : d1 = addAll [] (rawPairs rest1) := load_go_ok_addAll rest1 [] d1 h1
    have hn1 : NodupKeys d1 := by
      rw [hd1]
      exact nodupKeys_addAll _ (by simp [NodupKeys, dictKeys])
    rw [mem_main_result hn1 u]
    constructor
    · rintro ⟨s1, hs1, s2, hs2, hne⟩
      rcases hne with ⟨p, hp⟩
      rcases Finset.mem_sdiff.mp hp with ⟨hp2, hp1⟩
      exact ⟨s1, hs1, s2, hs2, p, hp2, hp1⟩
    · rintro ⟨s1, hs1, s2, hs2, p, hp2, hp1⟩
      exact ⟨s1, hs1, s2, hs2, ⟨p, Finset.mem_sdiff.mpr ⟨hp2, hp1⟩⟩⟩

/-- Witness for C1 at concrete inputs. -/
theorem C1_result_membership_witness :
    (("u1" ∈ ({"u1"} : Finset String)) ↔ ∃ s, dictGet [("u1", {"pA"})] "u1" = some s ∧
      ∃ p, ("u1", p) ∈ validPairs [["u1", "pB", "t"]] ∧ p ∉ s)
    ∧
    (("u1" ∈ main_result [("u1", {"pA"})] [("u1", {"pB"})]) ↔
      ∃ s1, dictGet [("u1", {"pA"})] "u1" = some s1 ∧
        ∃ s2, dictGet [("u1", {"pB"})] "u1" = some s2 ∧ ∃ p ∈ s2, p ∉ s1) :=
  ⟨C1_result_membership.1 [("u1", {"pA"})] "f2" [["u1", "pB", "t"]] {"u1"} (by decide) "u1",
   C1_result_membership.2 [["h", "h", "h"], ["u1", "pA", "t"]]
     [["h", "h", "h"], ["u1", "pB", "t"]]
     [("u1", {"pA"})] [("u1", {"pB"})] (by decide) (by decide) "u1"⟩

/-- C5: for every day-one index and day-two row stream, the comparator with
the short-circuit step (skip when the user is already in the result set)
returns exactly what the comparator without that step returns. -/
theorem C5_shortcircuit_equiv (day1 : Dict) (f : String) (rows : List (List String)) :
    find_target_users day1 f rows = find_target_users_noshort day1 f rows :=
  find_go_eq_noshort rows f day1 1 ∅

/-- C7: on the spec's concrete example (day1 = {(u1,pA),(u1,pB),(u2,pX)},
day2 = {(u1,pA),(u1,pC),(u2,pX)}) the result set is exactly {u1}: the
`app.py` pipeline prints `u1` alone, and `main.py` (with a header line
prepended, since `load_visits` drops the first line) prints the same. -/
theorem C7_example :
    build_day1_index "day1.csv" [["u1", "pA", "t1"], ["u1", "pB", "t2"], ["u2", "pX", "t3"]]
        = .ok [("u1", {"pA", "pB"}), ("u2", {"pX"})] ∧
      find_target_users [("u1", {"pA", "pB"}), ("u2", {"pX"})] "day2.csv"
        [["u1", "pA", "t4"], ["u1", "pC", "t5"], ["u2", "pX", "t6"]] = .ok {"u1"} ∧
      run_app "day1.csv" "day2.csv"
        [["u1", "pA", "t1"], ["u1", "pB", "t2"], ["u2", "pX", "t3"]]
        [["u1", "pA", "t4"], ["u1", "pC", "t5"], ["u2", "pX", "t6"]] = .ok "u1\n" ∧
      run_main
        (["user_id", "product_id", "timestamp"] ::
          [["u1", "pA", "t1"], ["u1", "pB", "t2"], ["u2", "pX", "t3"]])
        (["user_id", "product_id", "timestamp"] ::
          [["u1", "pA", "t4"], ["u1", "pC", "t5"], ["u2", "pX", "t6"]]) = .ok "u1\n" := by
  refine ⟨by decide, by decide, ?_, by decide⟩
  have h1 : build_day1_index "day1.csv"
      [["u1", "pA", "t1"], ["u1", "pB", "t2"], ["u2", "pX", "t3"]]
      = .ok [("u1", {"pA", "pB"}), ("u2", {"pX"})] := by decide
  have h2 : find_target_users [("u1", {"pA", "pB"}), ("u2", {"pX"})] "day2.csv"
      [["u1", "pA", "t4"], ["u1", "pC", "t5"], ["u2", "pX", "t6"]] = .ok {"u1"} := by decide
  simp [run_app, h1, h2, write_output, Finset.sort_singleton]
  rfl

/-- C9: the comparison pass leaves the day-one index unchanged: when the
state-threaded comparator terminates normally it returns exactly the index
it was given (same mapping, hence every per-user product set identical),
together with the result the plain comparator computes. -/
theorem C9_day1_index_unchanged (day1 : Dict) (f : String) (rows : List (List String))
    (d' : Dict) (r : Finset String)
    (h : find_target_users_st day1 f rows = .ok (d', r)) :
    d' = day1 ∧ (∀ u, dictGet d' u = dictGet day1 u) ∧
      find_target_users day1 f rows = .ok r := by
  have heq : find_target_users_st day1 f rows
      = (find_go f day1 1 rows ∅).map (fun res => (day1, res)) :=
    find_go_st_eq rows f day1 1 ∅
  rw [heq] at h
  cases hf : find_go f day1 1 rows ∅ with
  | error e =>
      rw [hf] at h
      cases h
  | ok res =>
      rw [hf] at h
      have hpair : (day1, res) = (d', r) := by
        simpa [Except.map] using h
      cases hpair
      exact ⟨rfl, fun u => rfl, hf⟩

/-- Witness for C9 at a concrete run. -/
theorem C9_day1_index_unchanged_witness :
    [("u1", ({"pA"} : Finset String))] = [("u1", {"pA"})] ∧
      (∀ u, dictGet [("u1", {"pA"})] u = dictGet [("u1", {"pA"})] u) ∧
      find_target_users [("u1", {"pA"})] "f2" [["u1", "pB", "t"]] = .ok {"u1"} :=
  C9_day1_index_unchanged [("u1", {"pA"})] "f2" [["u1", "pB", "t"]]
    [("u1", {"pA"})] {"u1"} (by decide)

/-- C10: `load_visits` unconditionally discards the first row of a
non-empty file: the returned mapping is the one built from the remaining
rows, and replacing the first row by any other row leaves the result
unchanged, so a data record on line 1 never affects the result. -/
theorem C10_first_line_always_skipped (first other : List String)
    (rest : List (List String)) :
    load_visits (first :: rest) = load_visits_go rest [] ∧
      load_visits (first :: rest) = load_visits (other :: rest) :=
  ⟨rfl, rfl⟩

/-- C2 counterexample: in `main.py` a 2-field row on line 1 is consumed by
the unvalidated header skip: the run does not abort and the malformed row
is silently skipped, so not every malformed row aborts with a located
error. -/
theorem C2_counterexample :
    ([["a", "b"]] : List (List String)).get? 0 = some ["a", "b"] ∧
      (["a", "b"] : List String).length ≠ 3 ∧
      load_visits [["a", "b"]] = .ok [] := by
  refine ⟨rfl, by decide, rfl⟩

/-- C2 amended: in `app.py` both passes abort at the first row without
exactly 3 fields, with an error identifying the file and the 1-based line
number; in `main.py` the first line is dropped without any validation (a
malformed line 1 is silently skipped), and the first malformed row after
it aborts the run with the unpacking error, which carries neither file nor
line number. -/
theorem C2_amended_malformed :
    (∀ (f : String) (rows : List (List String)) (i : Nat) (row : List String),
      (∀ j, j < i → ∀ r', rows.get? j = some r' → r'.length = 3) →
      rows.get? i = some row → row.length ≠ 3 →
      build_day1_index f rows = .error ⟨f, i + 1⟩)
    ∧
    (∀ (day1 : Dict) (f : String) (rows : List (List String)) (i : Nat) (row : List String),
      (∀ j, j < i → ∀ r', rows.get? j = some r' → r'.length = 3) →
      rows.get? i = some row → row.length ≠ 3 →
      find_target_users day1 f rows = .error ⟨f, i + 1⟩)
    ∧
    (∀ (first row : List String) (rest : List (List String)) (i : Nat),
      (∀ j, j < i → ∀ r', rest.get? j = some r' → r'.length = 3) →
      rest.get? i = some row → row.length ≠ 3 →
      load_visits (first :: rest) = .error .unpackError) := by
  refine ⟨?_, ?_, ?_⟩
  · intro f rows i row hpre hget hlen
    have h := build_go_error_at rows i row f 1 [] hpre hget hlen
    rwa [Nat.add_comm 1 i] at h
  · intro day1 f rows i row hpre hget hlen
    have h := find_go_error_at rows i row f day1 1 ∅ hpre hget hlen
    rwa [Nat.add_comm 1 i] at h
  · intro first row rest i hpre hget hlen
    exact load_go_error_at rest i row [] hpre hget hlen

/-- Witness for C2 (amended) at concrete malformed inputs. -/
theorem C2_amended_malformed_witness :
    build_day1_index "d1" [["x", "y"]] = .error ⟨"d1", 1⟩ ∧
      find_target_users [] "d2" [["x", "y"]] = .error ⟨"d2", 1⟩ ∧
      load_visits [["h", "h"], ["x", "y"]] = .error .unpackError :=
  ⟨C2_amended_malformed.1 "d1" [["x", "y"]] 0 ["x", "y"]
      (fun j hj => absurd hj (Nat.not_lt_zero j)) rfl (by decide),
   C2_amended_malformed.2.1 [] "d2" [["x", "y"]] 0 ["x", "y"]
      (fun j hj => absurd hj (Nat.not_lt_zero j)) rfl (by decide),
   C2_amended_malformed.2.2 ["h", "h"] ["x", "y"] [["x", "y"]] 0
      (fun j hj => absurd hj (Nat.not_lt_zero j)) rfl (by decide)⟩

/-- C3 counterexample: `main.py` prints the qualifying users in day-one
insertion order, not sorted: with u2 first in the day-one file the output
is "u2\nu1\n", although "u1" precedes "u2" in code-point order. -/
theorem C3_counterexample :
    run_main [["h", "h", "h"], ["u2", "pA", "t"], ["u1", "pA", "t"]]
        [["h", "h", "h"], ["u2", "pB", "t"], ["u1", "pB", "t"]] = .ok "u2\nu1\n" ∧
      ("u1" : String).toList < "u2".toList := by
  exact ⟨by decide, by decide⟩

/-- C3 amended: `app.py`'s output stage writes exactly the members of the
result set, sorted ascending, one per line each followed by a single
newline and nothing more; `main.py` instead prints each qualifying id
followed by a newline in day-one insertion order (a subsequence of the
day-one key sequence), without sorting. -/
theorem C3_amended_output :
    (∀ r : Finset String,
      write_output r = String.join ((r.sort (· ≤ ·)).map (fun uid => uid ++ "\n")) ∧
      List.Sorted (· ≤ ·) (r.sort (· ≤ ·)) ∧
      ∀ u, u ∈ r.sort (· ≤ ·) ↔ u ∈ r)
    ∧
    (∀ d1 d2 : Dict,
      main_output (main_result d1 d2) =
        String.join ((main_result d1 d2).map (fun uid => uid ++ "\n")) ∧
      (main_result d1 d2).Sublist (dictKeys d1)) := by
  constructor
  · intro r
    exact ⟨rfl, Finset.sort_sorted _ _, fun u => Finset.mem_sort _⟩
  · intro d1 d2
    refine ⟨rfl, ?_⟩
    simp only [main_result, dictKeys]
    exact (List.filter_sublist d1).map Prod.fst

/-- C4 counterexample: `main.py` neither trims ids nor discards blank-id
rows: a row whose user_id is surrounded by whitespace and a row whose
user_id is empty are both entered verbatim into the index. -/
theorem C4_counterexample :
    load_visits [["h", "h", "h"], [" u1 ", "pA", "t"], ["", "pB", "t"]]
      = .ok [(" u1 ", {"pA"}), ("", {"pB"})] := by decide

/-- C4 amended: in `app.py` both passes strip the two id fields and use
only the stripped values, and a row whose stripped user_id or product_id
is empty is skipped silently, without error and without touching the
accumulated index or result; in `main.py` the id fields are used verbatim
— untrimmed, with blank ids retained. -/
theorem C4_amended_trim_blank :
    (∀ (f : String) (n : Nat) (a b c : String) (rest : List (List String)) (d : Dict),
      (pyStrip a = "" ∨ pyStrip b = "") →
      build_day1_go f n ([a, b, c] :: rest) d = build_day1_go f (n + 1) rest d)
    ∧
    (∀ (f : String) (day1 : Dict) (n : Nat) (a b c : String)
       (rest : List (List String)) (r : Finset String),
      (pyStrip a = "" ∨ pyStrip b = "") →
      find_go f day1 n ([a, b, c] :: rest) r = find_go f day1 (n + 1) rest r)
    ∧
    (∀ (f : String) (n : Nat) (a b c : String) (rest : List (List String)) (d : Dict),
      ¬(pyStrip a = "" ∨ pyStrip b = "") →
      build_day1_go f n ([a, b, c] :: rest) d =
        build_day1_go f (n + 1) rest (dictAdd d (pyStrip a) (pyStrip b)))
    ∧
    (∀ (a b c : String) (rest : List (List String)) (d : Dict),
      load_visits_go ([a, b, c] :: rest) d = load_visits_go rest (dictAdd d a b)) :=
  ⟨fun _ _ _ _ _ _ _ h => build_go_cons_blank h,
   fun _ _ _ _ _ _ _ _ h => find_go_cons_blank h,
   fun _ _ _ _ _ _ _ h => build_go_cons_add h,
   fun _ _ _ _ _ => load_go_cons_add⟩

/-- Witness for C4 (amended) at concrete rows. -/
theorem C4_amended_trim_blank_witness :
    build_day1_go "d1" 1 [[" ", "p", "t"]] [] = build_day1_go "d1" 2 [] [] ∧
      find_go "d2" [] 1 [["", "p", "t"]] ∅ = find_go "d2" [] 2 [] ∅ ∧
      build_day1_go "d1" 1 [[" u1 ", " pA ", "t"]] [] =
        build_day1_go "d1" 2 [] (dictAdd [] "u1" "pA") ∧
      load_visits_go [["", "p", "t"]] [] = load_visits_go [] (dictAdd [] "" "p") :=
  ⟨C4_amended_trim_blank.1 "d1" 1 " " "p" "t" [] [] (by decide),
   C4_amended_trim_blank.2.1 "d2" [] 1 "" "p" "t" [] ∅ (by decide),
   C4_amended_trim_blank.2.2.1 "d1" 1 " u1 " " pA " "t" [] [] (by decide),
   C4_amended_trim_blank.2.2.2 "" "p" "t" [] []⟩

theorem pairsProducts_congr {l l' : List (String × String)}
    (h : ∀ pr, pr ∈ l ↔ pr ∈ l') (u : String) :
    pairsProducts l u = pairsProducts l' u :=
  Finset.ext fun p => by
    rw [mem_pairsProducts, mem_pairsProducts]
    exact h (u, p)

theorem dictGet_addAll_congr {l l' : List (String × String)}
    (h : ∀ pr, pr ∈ l ↔ pr ∈ l') (u : String) :
    dictGet (addAll [] l) u = dictGet (addAll [] l') u := by
  rw [addAll_dictGet, addAll_dictGet, pairsProducts_congr h u]

/-- C6: duplicated rows do not change the result.  If the processed pair
streams of two inputs have equal membership — in particular when one input
is the other with duplicate rows removed — then any two successful `app.py`
runs return the same result set, and any two successful `main.py` runs
print the same set of users. -/
theorem C6_duplicates_removed :
    (∀ (f1 f2 : String) (rows1 rows2 rows1' rows2' : List (List String))
       (d1 d1' : Dict) (r r' : Finset String),
      validPairs rows1' = (validPairs rows1).dedup →
      validPairs rows2' = (validPairs rows2).dedup →
      build_day1_index f1 rows1 = .ok d1 →
      build_day1_index f1 rows1' = .ok d1' →
      find_target_users d1 f2 rows2 = .ok r →
      find_target_users d1' f2 rows2' = .ok r' →
      r = r')
    ∧
    (∀ (rows1 rows2 rows1' rows2' : List (List String)) (d1 d2 d1' d2' : Dict),
      rawPairs (rows1'.drop 1) = (rawPairs (rows1.drop 1)).dedup →
      rawPairs (rows2'.drop 1) = (rawPairs (rows2.drop 1)).dedup →
      load_visits rows1 = .ok d1 → load_visits rows2 = .ok d2 →
      load_visits rows1' = .ok d1' → load_visits rows2' = .ok d2' →
      (main_result d1 d2).toFinset = (main_result d1' d2').toFinset) := by
  constructor
  · intro f1 f2 rows1 rows2 rows1' rows2' d1 d1' r r' hv1 hv2 hb hb' hf hf'
    have hmem1 : ∀ pr, pr ∈ validPairs rows1' ↔ pr ∈ validPairs rows1 := by
      intro pr
      rw [hv1, List.mem_dedup]
    have hd1 : d1 = addAll [] (validPairs rows1) := build_go_ok_addAll rows1 f1 1 [] d1 hb
    have hd1' : d1' = addAll [] (validPairs rows1') :=
      build_go_ok_addAll rows1' f1 1 [] d1' hb'
    have hget : ∀ u, dictGet d1' u = dictGet d1 u := by
      intro u
      rw [hd1, hd1']
      exact dictGet_addAll_congr hmem1 u
    apply Finset.ext
    intro u
    rw [find_go_ok_iff rows2 f2 d1 1 ∅ r hf u, find_go_ok_iff rows2' f2 d1' 1 ∅ r' hf' u]
    simp only [Finset.not_mem_empty, false_or]
    constructor
    · rintro ⟨p, hp, s, hs, hns⟩
      refine ⟨p, ?_, s, ?_, hns⟩
      · rw [hv2, List.mem_dedup]
        exact hp
      · rw [hget u]
        exact hs
    · rintro ⟨p, hp, s, hs, hns⟩
      rw [hv2, List.mem_dedup] at hp
      rw [hget u] at hs
      exact ⟨p, hp, s, hs, hns⟩
  · intro rows1 rows2 rows1' rows2' d1 d2 d1' d2' hv1 hv2 h1 h2 h1' h2'
    rcases rows1 with _ | ⟨a1, t1⟩
    · simp [load_visits] at h1
    rcases rows2 with _ | ⟨a2, t2⟩
    · simp [load_visits] at h2
    rcases rows1' with _ | ⟨b1, t1'⟩
    · simp [load_visits] at h1'
    rcases rows2' with _ | ⟨b2, t2'⟩
    · simp [load_visits] at h2'
    simp only [List.drop_succ_cons, List.drop_zero] at hv1 hv2
    have hd1 : d1 = addAll [] (rawPairs t1) := load_go_ok_addAll t1 [] d1 h1
    have hd2 : d2 = addAll [] (rawPairs t2) := load_go_ok_addAll t2 [] d2 h2
    have hd1' : d1' = addAll [] (rawPairs t1') := load_go_ok_addAll t1' [] d1' h1'
    have hd2' : d2' = addAll [] (rawPairs t2') := load_go_ok_addAll t2' [] d2' h2'
    have hm1 : ∀ pr, pr ∈ rawPairs t1' ↔ pr ∈ rawPairs t1 := by
      intro pr
      rw [hv1, List.mem_dedup]
    have hm2 : ∀ pr, pr ∈ rawPairs t2' ↔ pr ∈ rawPairs t2 := by
      intro pr
      rw [hv2, List.mem_dedup]
    have hget1 : ∀ u, dictGet d1' u = dictGet d1 u := by
      intro u
      rw [hd1, hd1']
      exact dictGet_addAll_congr hm1 u
    have hget2 : ∀ u, dictGet d2' u = dictGet d2 u := by
      intro u
      rw [hd2, hd2']
      exact dictGet_addAll_congr hm2 u
    have hn1 : NodupKeys d1 := by
      rw [hd1]
      exact nodupKeys_addAll _ (by simp [NodupKeys, dictKeys])
    have hn1' : NodupKeys d1' := by
      rw [hd1']
      exact nodupKeys_addAll _ (by simp [NodupKeys, dictKeys])
    apply Finset.ext
    intro u
    rw [List.mem_toFinset, List.mem_toFinset, mem_main_result hn1 u, mem_main_result hn1' u]
    constructor
    · rintro ⟨s1, hs1, s2, hs2, hne⟩
      refine ⟨s1, ?_, s2, ?_, hne⟩
      · rw [hget1 u]
        exact hs1
      · rw [hget2 u]
        exact hs2
    · rintro ⟨s1, hs1, s2, hs2, hne⟩
      rw [hget1 u] at hs1
      rw [hget2 u] at hs2
      exact ⟨s1, hs1, s2, hs2, hne⟩

/-- Witness for C6 at concrete duplicated inputs and their deduplications. -/
theorem C6_duplicates_removed_witness :
    ({"u1"} : Finset String) = {"u1"} ∧
      (main_result [("u1", {"pA"})] [("u1", {"pB"})]).toFinset =
        (main_result [("u1", {"pA"})] [("u1", {"pB"})]).toFinset :=
  ⟨C6_duplicates_removed.1 "d1" "d2"
      [["u1", "pA", "t1"], ["u1", "pA", "t1"]] [["u1", "pB", "t2"], ["u1", "pB", "t2"]]
      [["u1", "pA", "t1"]] [["u1", "pB", "t2"]]
      [("u1", {"pA"})] [("u1", {"pA"})] {"u1"} {"u1"}
      (by decide) (by decide) (by decide) (by decide) (by decide) (by decide),
   C6_duplicates_removed.2
      [["h", "h", "h"], ["u1", "pA", "t"], ["u1", "pA", "t"]]
      [["h", "h", "h"], ["u1", "pB", "t"], ["u1", "pB", "t"]]
      [["h", "h", "h"], ["u1", "pA", "t"]]
      [["h", "h", "h"], ["u1", "pB", "t"]]
      [("u1", {"pA"})] [("u1", {"pB"})] [("u1", {"pA"})] [("u1", {"pB"})]
      (by decide) (by decide) (by decide) (by decide) (by decide) (by decide)⟩

/-- C8: the timestamp field never influences the computation: if two pairs
of inputs differ only in third fields of 3-field rows, every stage of both
variants behaves identically — same index, same result set, same output,
same errors. -/
theorem C8_timestamp_irrelevant
    (f1 f2 : String) (rows1 rows2 rows1' rows2' : List (List String))
    (h1 : tsEqRows rows1 rows1' = true) (h2 : tsEqRows rows2 rows2' = true) :
    build_day1_index f1 rows1 = build_day1_index f1 rows1' ∧
      (∀ day1 : Dict, find_target_users day1 f2 rows2 = find_target_users day1 f2 rows2') ∧
      run_app f1 f2 rows1 rows2 = run_app f1 f2 rows1' rows2' ∧
      load_visits rows1 = load_visits rows1' ∧
      run_main rows1 rows2 = run_main rows1' rows2' := by
  have hb : build_day1_index f1 rows1 = build_day1_index f1 rows1' :=
    build_go_tsEq rows1 rows1' f1 1 [] h1
  have hf : ∀ day1 : Dict,
      find_target_users day1 f2 rows2 = find_target_users day1 f2 rows2' :=
    fun day1 => find_go_tsEq rows2 rows2' f2 day1 1 ∅ h2
  have hl1 : load_visits rows1 = load_visits rows1' := load_visits_tsEq h1
  have hl2 : load_visits rows2 = load_visits rows2' := load_visits_tsEq h2
  refine ⟨hb, hf, ?_, hl1, ?_⟩
  · show run_app f1 f2 rows1 rows2 = run_app f1 f2 rows1' rows2'
    unfold run_app
    rw [hb]
    cases build_day1_index f1 rows1' with
    | error e => rfl
    | ok d1 => simp only [hf d1]
  · show run_main rows1 rows2 = run_main rows1' rows2'
    unfold run_main
    rw [hl1, hl2]

/-- Witness for C8 at concrete inputs differing only in timestamps. -/
theorem C8_timestamp_irrelevant_witness :
    build_day1_index "d1" [["u1", "pA", "t1"]] = build_day1_index "d1" [["u1", "pA", "T1"]] ∧
      (∀ day1 : Dict, find_target_users day1 "d2" [["u1", "pB", "t2"]]
        = find_target_users day1 "d2" [["u1", "pB", "T2"]]) ∧
      run_app "d1" "d2" [["u1", "pA", "t1"]] [["u1", "pB", "t2"]]
        = run_app "d1" "d2" [["u1", "pA", "T1"]] [["u1", "pB", "T2"]] ∧
      load_visits [["u1", "pA", "t1"]] = load_visits [["u1", "pA", "T1"]] ∧
      run_main [["u1", "pA", "t1"]] [["u1", "pB", "t2"]]
        = run_main [["u1", "pA", "T1"]] [["u1", "pB", "T2"]] :=
  C8_timestamp_irrelevant "d1" "d2" [["u1", "pA", "t1"]] [["u1", "pB", "t2"]]
    [["u1", "pA", "T1"]] [["u1", "pB", "T2"]] (by decide) (by decide)
